import Mathlib

/-!
Verification of the FPL stats ingestion / filtering pipeline.

Shallow embedding of the repository sources:
  * `models.py` — pydantic entities (`Event`, `EventList`, `Team`, `TeamList`,
    `Position`, `PositionList`) and the current-event resolver / id lookups;
  * `app.py` — `parse_official_stats` (all-or-nothing validation into the
    session state), `preprocess_players_df` (price-change indicator), and the
    body of `main` (value-efficiency ratio, descending sort, the conjunction
    of filters, and the per-position grouping into tabs).

Conventions: Python `datetime` values are modelled as integer timestamps
(comparison is all the code uses); Python `float` columns are modelled with
`PandasVal` (a rational tagged with the IEEE specials `+inf`, `-inf`, `NaN`)
so that division by zero behaves as numpy/pandas does; Python `int` is `Int`.
-/

/-- Model of `Event` from `models.py` (field-for-field; `datetime` as an integer
timestamp, `Optional[Any]` payloads as `Option Unit`, `float` as `ℚ`). -/
structure Event where
  average_entry_score : ℚ
  chip_plays : List Unit
  cup_leagues_created : Bool
  data_checked : Bool
  deadline_time : Int
  deadline_time_epoch : Int
  deadline_time_game_offset : Int
  finished : Bool
  h2h_ko_matches_created : Bool
  highest_score : Option ℚ
  highest_scoring_entry : Option Unit
  id : Int
  is_current : Bool
  is_next : Bool
  is_previous : Bool
  most_captained : Option Unit
  most_selected : Option Unit
  most_transferred_in : Option Unit
  most_vice_captained : Option Unit
  name : String
  ranked_count : Int
  release_time : Option Int
  top_element : Option Unit
  top_element_info : Option Unit
  transfers_made : Int
deriving DecidableEq, Repr

/-- Model of `EventList` from `models.py`. -/
structure EventList where
  events : List Event
deriving DecidableEq, Repr

/-- Python `min(iterable, key=...)` on a nonempty iterable `x :: xs`: scan
left to right, replace the current best only on a strictly smaller key, so
the first element attaining the minimum key is returned. -/
def pyMinBy (key : Event → Int) (x : Event) (xs : List Event) : Event :=
  xs.foldl (fun best e => if key e < key best then e else best) x

/-- Model of `EventList.current_event` from `models.py`: filter the events whose
`deadline_time` is strictly after `today` (the evaluation instant, UTC);
if any remain, take the one with minimum `id`, else `None`. -/
def EventList.current_event (el : EventList) (today : Int) : Option Event :=
  match el.events.filter (fun e => today < e.deadline_time) with
  | [] => none
  | e :: es => some (pyMinBy (fun x => x.id) e es)

/-- Model of `EventList.current_event_id` from `models.py`. -/
def EventList.current_event_id (el : EventList) (today : Int) : Option Int :=
  match el.current_event today with
  | some ev => some ev.id
  | none => none

/-- Model of `EventList.current_event_name` from `models.py`. -/
def EventList.current_event_name (el : EventList) (today : Int) : Option String :=
  match el.current_event today with
  | some ev => some ev.name
  | none => none

/-- Model of `Team` from `models.py` (field-for-field). -/
structure Team where
  code : Int
  draw : Int
  form : Option Unit
  id : Int
  loss : Int
  name : String
  played : Int
  points : Int
  position : Int
  short_name : String
  strength : Int
  team_division : Option Unit
  unavailable : Bool
  win : Int
  strength_overall_home : Int
  strength_overall_away : Int
  strength_attack_home : Int
  strength_attack_away : Int
  strength_defence_home : Int
  strength_defence_away : Int
  pulse_id : Int
deriving DecidableEq, Repr

/-- Model of `TeamList` from `models.py`. -/
structure TeamList where
  teams : List Team
deriving DecidableEq, Repr

/-- The `for team in self.teams: if team.id == team_id: return team.name`
loop of `TeamList.team_name_by_id`. -/
def teamLookupLoop : List Team → Int → Option String
  | [], _ => none
  | t :: ts, i => if t.id = i then some t.name else teamLookupLoop ts i

/-- Model of `TeamList.team_name_by_id` from `models.py`. -/
def TeamList.team_name_by_id (tl : TeamList) (team_id : Int) : Option String :=
  teamLookupLoop tl.teams team_id

/-- Model of `Position` from `models.py` (field-for-field). -/
structure Position where
  id : Int
  plural_name : String
  singular_name : String
  squad_select : Int
  squad_min_play : Int
  squad_max_play : Int
  ui_shirt_specific : Bool
  element_count : Int
deriving DecidableEq, Repr

/-- Model of `PositionList` from `models.py`. -/
structure PositionList where
  positions : List Position
deriving DecidableEq, Repr

/-- The lookup loop of `PositionList.position_singular_name_by_id`. -/
def positionLookupLoop : List Position → Int → Option String
  | [], _ => none
  | p :: ps, i => if p.id = i then some p.singular_name else positionLookupLoop ps i

/-- Model of `PositionList.position_singular_name_by_id` from `models.py`. -/
def PositionList.position_singular_name_by_id (pl : PositionList) (position_id : Int) :
    Option String :=
  positionLookupLoop pl.positions position_id

/-- Model of `np.sign` on integers. -/
def intSign (x : Int) : Int :=
  if 0 < x then 1 else if x < 0 then -1 else 0

/-- The symbol dictionary lookup (the pandas `.map` sending `-1` to the down
arrow, `0` to a space and `1` to the up arrow) used by
`preprocess_players_df` in `app.py` (a pandas `.map` with a dict is partial:
keys outside the dict give a missing value). -/
def priceChangeMap (v : Int) : Option String :=
  if v = -1 then some "⬇️"
  else if v = 0 then some " "
  else if v = 1 then some "⬆️"
  else none

/-- The "Price Change" column of `preprocess_players_df` in `app.py`, per row:
`sign(sign(cost_change_event) + sign(cost_change_start))` pushed through the
symbol dictionary. -/
def price_change_indicator (cost_change_event cost_change_start : Int) : Option String :=
  priceChangeMap (intSign (intSign cost_change_event + intSign cost_change_start))

/-- Modelled from the spec: the spec's mapping of the combined sign to one of
three symbols — negative → "down" (`"⬇️"`), zero → "flat" (`" "`),
positive → "up" (`"⬆️"`). -/
def specPriceDirection (cost_change_event cost_change_start : Int) : String :=
  if intSign (intSign cost_change_event + intSign cost_change_start) < 0 then "⬇️"
  else if intSign (intSign cost_change_event + intSign cost_change_start) = 0 then " "
  else "⬆️"

/-- A pandas/numpy `float64` cell as the pipeline uses it: a finite rational
or one of the IEEE specials. -/
inductive PandasVal where
  | num (q : ℚ)
  | posInf
  | negInf
  | nan
deriving DecidableEq, Repr

/-- Model of numpy `float64` division as it acts on the values above (`x / 0.0` is
`±inf` for `x ≠ 0` and `nan` for `0.0 / 0.0`; no exception is ever raised).
This is what `df["xPoint This GW"] / df["Price"]` computes per row in
`main` of `app.py`. -/
def pdiv : PandasVal → PandasVal → PandasVal
  | .nan, _ => .nan
  | _, .nan => .nan
  | .num a, .num b =>
      if b = 0 then
        if 0 < a then .posInf else if a < 0 then .negInf else .nan
      else .num (a / b)
  | .num _, .posInf => .num 0
  | .num _, .negInf => .num 0
  | .posInf, .num b => if 0 ≤ b then .posInf else .negInf
  | .negInf, .num b => if 0 ≤ b then .negInf else .posInf
  | .posInf, .posInf => .nan
  | .posInf, .negInf => .nan
  | .negInf, .posInf => .nan
  | .negInf, .negInf => .nan

/-- The numeric order on non-`nan` pandas values (`-inf < finite < +inf`),
as a Boolean `≤`; `nan` compares false both ways, matching IEEE. -/
def pvLE : PandasVal → PandasVal → Bool
  | .nan, _ => false
  | _, .nan => false
  | .negInf, _ => true
  | _, .posInf => true
  | .num a, .num b => a ≤ b
  | .posInf, _ => false
  | .num _, .negInf => false

/-- One row of the `df_all_players` working table in `main` of `app.py`,
restricted to the columns the filter / sort / group pipeline reads:
`Name`, `POS` (an `Option`: the id→name lookup can return `None`),
`Team` (likewise), `Status`, `Price` (already divided by 10), and the
derived `xPoint/Price This GW` ratio column. -/
structure Row where
  name : String
  pos : Option String
  team : Option String
  status : String
  price : ℚ
  ratio : PandasVal
deriving DecidableEq, Repr

/-- Insert a row into a list sorted descending by `ratio`, before the first
element it is ≥ to. -/
def insertDesc (x : Row) : List Row → List Row
  | [] => [x]
  | y :: ys => if pvLE y.ratio x.ratio then x :: y :: ys else y :: insertDesc x ys

/-- Sort rows descending by `ratio` (insertion sort). -/
def sortDesc : List Row → List Row
  | [] => []
  | x :: xs => insertDesc x (sortDesc xs)

/-- Model of the `sort_values` call (by the ratio column, descending) in `main`
of `app.py`: non-`nan` rows sorted descending by the ratio column, `nan`
rows placed last (pandas default `na_position="last"`). -/
def sort_values_ratio_desc (rows : List Row) : List Row :=
  sortDesc (rows.filter (fun r => match r.ratio with | .nan => false | _ => true))
    ++ rows.filter (fun r => match r.ratio with | .nan => true | _ => false)

/-- Relation stating that row `a` may appear no later than row `b` in the
output of
`sort_values_ratio_desc`: either `b` is a `nan` row, or both are non-`nan`
and `a`'s ratio is ≥ `b`'s. -/
def rowSortedBefore (a b : Row) : Prop :=
  b.ratio = .nan ∨ (a.ratio ≠ .nan ∧ b.ratio ≠ .nan ∧ pvLE b.ratio a.ratio = true)

instance (a b : Row) : Decidable (rowSortedBefore a b) := by
  unfold rowSortedBefore; infer_instance

/-- Pandas `Series.isin(values)` on an object column that may hold `None`:
a `None` cell is never a member. -/
def seriesIsin (v : Option String) (opts : List String) : Bool :=
  match v with
  | some s => opts.contains s
  | none => false

/-- The interactive filter parameters collected in `main` of `app.py`:
the `position` and `team` multiselects, the four status checkboxes, and the
inclusive `price_range` slider. -/
structure Criteria where
  position : List String
  team : List String
  injured : Bool
  unavailable : Bool
  suspended : Bool
  doubt : Bool
  priceLo : ℚ
  priceHi : ℚ
deriving DecidableEq, Repr

/-- The filter cascade of `main` in `app.py` (lines 244-262): keep rows whose
`POS` is in the selected positions, then whose `Team` is in the selected
teams, drop status `"i"` / `"u"` / `"s"` / `"d"` rows unless the matching
checkbox is set, then keep rows inside the inclusive price range. -/
def applyFilter (rows : List Row) (c : Criteria) : List Row :=
  let df1 := rows.filter (fun r => seriesIsin r.pos c.position)
  let df2 := df1.filter (fun r => seriesIsin r.team c.team)
  let df3 := if c.injured then df2 else df2.filter (fun r => r.status ≠ "i")
  let df4 := if c.unavailable then df3 else df3.filter (fun r => r.status ≠ "u")
  let df5 := if c.suspended then df4 else df4.filter (fun r => r.status ≠ "s")
  let df6 := if c.doubt then df5 else df5.filter (fun r => r.status ≠ "d")
  df6.filter (fun r => decide (c.priceLo ≤ r.price) && decide (r.price ≤ c.priceHi))

/-- The per-row keep-predicate the filter cascade amounts to (ANDed
conjunction of all predicates). -/
def keepRow (c : Criteria) (r : Row) : Bool :=
  seriesIsin r.pos c.position && seriesIsin r.team c.team
    && (c.injured || r.status ≠ "i") && (c.unavailable || r.status ≠ "u")
    && (c.suspended || r.status ≠ "s") && (c.doubt || r.status ≠ "d")
    && decide (c.priceLo ≤ r.price) && decide (r.price ≤ c.priceHi)

/-- Model of the `df_filtered[df_filtered["POS"] == pos]` selection in the
tabs loop of `main`:
the group of filtered rows whose position equals the tab's name (a `None`
cell never equals a string). -/
def posGroup (rows : List Row) (p : String) : List Row :=
  rows.filter (fun r => r.pos == some p)

/-- The `for tab, pos in zip(tabs, position)` loop of `main`: one group per
selected position name. -/
def groupTabs (rows : List Row) (position : List String) : List (List Row) :=
  position.map (posGroup rows)

/-- One raw feed document: the four top-level arrays of the
`bootstrap-static` response, with the per-array raw record types abstract. -/
structure RawDoc (τ π ε ρ : Type) where
  teams : List τ
  elements : List π
  events : List ε
  element_types : List ρ
deriving DecidableEq

/-- The four `st.session_state` slots `parse_official_stats` assigns
(`Option`: a slot is absent until the first successful parse). -/
structure SessionState (T P E R : Type) where
  teams : Option (List T)
  players : Option (List P)
  events : Option (List E)
  positions : Option (List R)
deriving DecidableEq

/-- A Python list comprehension `[Model.model_validate(x) for x in arr]`
where `model_validate` may raise (`none`): the first failure aborts the whole
comprehension with no value produced. -/
def validateList (f : α → Option β) : List α → Option (List β)
  | [] => some []
  | x :: xs =>
    match f x with
    | none => none
    | some b =>
      match validateList f xs with
      | none => none
      | some bs => some (b :: bs)

/-- Model of `parse_official_stats` from `app.py`, abstracted over the pydantic
per-record validators (`Team.model_validate` etc. — `none` models a raised
`ValidationError`): all four arrays are validated before any session-state
slot is assigned, so a failure anywhere leaves the state `st` unchanged and
sets the raised flag. Returns (resulting session state, exception raised?). -/
def parse_official_stats (vt : τ → Option T) (vp : π → Option P) (ve : ε → Option E)
    (vr : ρ → Option R) (doc : RawDoc τ π ε ρ) (st : SessionState T P E R) :
    SessionState T P E R × Bool :=
  match validateList vt doc.teams, validateList vp doc.elements,
      validateList ve doc.events, validateList vr doc.element_types with
  | some ts, some ps, some es, some rs =>
    ({ teams := some ts, players := some ps, events := some es, positions := some rs }, false)
  | _, _, _, _ => (st, true)

/-! ### Concrete data used to instantiate the theorems -/

/-- An `Event` with the fields the resolver reads set explicitly and all
other fields at neutral values. -/
def mkEvent (i dl : Int) (nm : String) : Event where
  average_entry_score := 0
  chip_plays := []
  cup_leagues_created := false
  data_checked := false
  deadline_time := dl
  deadline_time_epoch := dl
  deadline_time_game_offset := 0
  finished := false
  h2h_ko_matches_created := false
  highest_score := none
  highest_scoring_entry := none
  id := i
  is_current := false
  is_next := false
  is_previous := false
  most_captained := none
  most_selected := none
  most_transferred_in := none
  most_vice_captained := none
  name := nm
  ranked_count := 0
  release_time := none
  top_element := none
  top_element_info := none
  transfers_made := 0

/-- The spec's resolver example, evaluated at instant `0`: deadlines one day
past, one day ahead, two days ahead. -/
def evListEx : EventList :=
  ⟨[mkEvent 1 (-86400) "Gameweek 1", mkEvent 2 86400 "Gameweek 2",
    mkEvent 3 172800 "Gameweek 3"]⟩

/-- A `Team` with `id` and `name` set and the other fields neutral. -/
def mkTeam (i : Int) (nm : String) : Team where
  code := 0
  draw := 0
  form := none
  id := i
  loss := 0
  name := nm
  played := 0
  points := 0
  position := 0
  short_name := nm
  strength := 0
  team_division := none
  unavailable := false
  win := 0
  strength_overall_home := 0
  strength_overall_away := 0
  strength_attack_home := 0
  strength_attack_away := 0
  strength_defence_home := 0
  strength_defence_away := 0
  pulse_id := 0

/-- A `Position` with `id` and singular name set and the other fields
neutral. -/
def mkPosition (i : Int) (s : String) : Position where
  id := i
  plural_name := s
  singular_name := s
  squad_select := 0
  squad_min_play := 0
  squad_max_play := 0
  ui_shirt_specific := false
  element_count := 0

/-- Two teams with distinct ids. -/
def tlEx : TeamList := ⟨[mkTeam 1 "Arsenal", mkTeam 2 "Chelsea"]⟩

/-- One position. -/
def plEx : PositionList := ⟨[mkPosition 1 "Goalkeeper"]⟩

/-- A player row of the working table. -/
def mkRow (nm : String) (p t : String) (stx : String) (pr : ℚ) (ra : PandasVal) : Row where
  name := nm
  pos := some p
  team := some t
  status := stx
  price := pr
  ratio := ra

/-- A small working table, already in descending-ratio order. -/
def rowsEx : List Row :=
  [mkRow "Saka" "Midfielder" "Arsenal" "a" 9 (.num 2),
   mkRow "Haaland" "Forward" "Man City" "a" 14 (.num 1),
   mkRow "Raya" "Goalkeeper" "Arsenal" "i" 5 (.num 0)]

/-- Filter criteria selecting two positions, two teams, no status checkbox
set, and a wide price range. -/
def critEx : Criteria :=
  { position := ["Midfielder", "Forward"], team := ["Arsenal", "Man City"],
    injured := false, unavailable := false, suspended := false, doubt := false,
    priceLo := 0, priceHi := 20 }

/-- A per-record validator over `Nat` raw records: `0` is the one invalid
record, any other value validates to itself. -/
def vNat : Nat → Option Nat := fun n => if n = 0 then none else some n

/-- A raw document whose `elements` array holds one invalid record. -/
def docBadEx : RawDoc Nat Nat Nat Nat := ⟨[1], [0], [2], [3]⟩

/-- A fully well-formed raw document. -/
def docGoodEx : RawDoc Nat Nat Nat Nat := ⟨[1], [2], [3], [4]⟩

/-- An initial session state with no slot assigned yet. -/
def stEx : SessionState Nat Nat Nat Nat := ⟨none, none, none, none⟩

/-- A row with a finite ratio. -/
def rowFinEx : Row := mkRow "Kane" "Forward" "Spurs" "a" 10 (PandasVal.num 1)

/-- A zero-price row whose ratio column came out as `+inf`. -/
def rowInfEx : Row := mkRow "Zero" "Forward" "Spurs" "a" 0 PandasVal.posInf

/-- An available (status `"a"`) row. -/
def rowAvailEx : Row := mkRow "Saka" "Midfielder" "Arsenal" "a" 9 (PandasVal.num 2)

/-! ### Helper lemmas -/

theorem pyMinBy_mem (key : Event → Int) (x : Event) (xs : List Event) :
    pyMinBy key x xs ∈ x :: xs := by
  induction xs generalizing x with
  | nil => simp [pyMinBy]
  | cons y ys ih =>
    simp only [pyMinBy, List.foldl_cons]
    by_cases h : key y < key x
    · rw [if_pos h]
      have := ih y
      simp only [pyMinBy] at this
      simp only [List.mem_cons] at this ⊢
      tauto
    · rw [if_neg h]
      have := ih x
      simp only [pyMinBy] at this
      simp only [List.mem_cons] at this ⊢
      tauto

theorem pyMinBy_le (key : Event → Int) (x : Event) (xs : List Event) :
    ∀ y ∈ x :: xs, key (pyMinBy key x xs) ≤ key y := by
  induction xs generalizing x with
  | nil =>
    intro y hy
    simp only [List.mem_cons, List.not_mem_nil, or_false] at hy
    simp [pyMinBy, hy]
  | cons z zs ih =>
    intro y hy
    simp only [pyMinBy, List.foldl_cons]
    simp only [List.mem_cons] at hy
    by_cases h : key z < key x
    · rw [if_pos h]
      have hz := ih z
      simp only [pyMinBy] at hz
      rcases hy with h1 | h1 | h1
      · subst h1
        exact le_trans (hz z (by simp)) (le_of_lt h)
      · subst h1
        exact hz y (by simp)
      · exact hz y (by simp [h1])
    · rw [if_neg h]
      have hx := ih x
      simp only [pyMinBy] at hx
      rcases hy with h1 | h1 | h1
      · subst h1
        exact hx y (by simp)
      · subst h1
        exact le_trans (hx x (by simp)) (not_lt.mp h)
      · exact hx y (by simp [h1])

theorem teamLookupLoop_eq_none (ts : List Team) (i : Int) (h : ∀ t ∈ ts, t.id ≠ i) :
    teamLookupLoop ts i = none := by
  induction ts with
  | nil => rfl
  | cons u us ih =>
    have hu : u.id ≠ i := h u (by simp)
    simp only [teamLookupLoop, if_neg hu]
    exact ih fun t ht => h t (by simp [ht])

theorem teamLookupLoop_eq_some (ts : List Team) (i : Int)
    (hnd : (ts.map Team.id).Nodup) (t : Team) (ht : t ∈ ts) (hid : t.id = i) :
    teamLookupLoop ts i = some t.name := by
  induction ts with
  | nil => cases ht
  | cons u us ih =>
    simp only [List.map_cons, List.nodup_cons] at hnd
    rcases List.mem_cons.mp ht with rfl | hmem
    · simp [teamLookupLoop, hid]
    · have hu : u.id ≠ i := by
        intro hui
        exact hnd.1 (hui ▸ hid ▸ List.mem_map_of_mem Team.id hmem)
      simp only [teamLookupLoop, if_neg hu]
      exact ih hnd.2 hmem

theorem positionLookupLoop_eq_none (ps : List Position) (i : Int)
    (h : ∀ p ∈ ps, p.id ≠ i) : positionLookupLoop ps i = none := by
  induction ps with
  | nil => rfl
  | cons u us ih =>
    have hu : u.id ≠ i := h u (by simp)
    simp only [positionLookupLoop, if_neg hu]
    exact ih fun p hp => h p (by simp [hp])

theorem positionLookupLoop_eq_some (ps : List Position) (i : Int)
    (hnd : (ps.map Position.id).Nodup) (p : Position) (hp : p ∈ ps) (hid : p.id = i) :
    positionLookupLoop ps i = some p.singular_name := by
  induction ps with
  | nil => cases hp
  | cons u us ih =>
    simp only [List.map_cons, List.nodup_cons] at hnd
    rcases List.mem_cons.mp hp with rfl | hmem
    · simp [positionLookupLoop, hid]
    · have hu : u.id ≠ i := by
        intro hui
        exact hnd.1 (hui ▸ hid ▸ List.mem_map_of_mem Position.id hmem)
      simp only [positionLookupLoop, if_neg hu]
      exact ih hnd.2 hmem

theorem validateList_eq_none_iff (f : α → Option β) (l : List α) :
    validateList f l = none ↔ ∃ x ∈ l, f x = none := by
  induction l with
  | nil => simp [validateList]
  | cons x xs ih =>
    cases hx : f x with
    | none =>
      simp only [validateList, hx]
      exact iff_of_true trivial ⟨x, List.mem_cons_self x xs, hx⟩
    | some b =>
      cases hxs : validateList f xs with
      | none =>
        rcases ih.mp hxs with ⟨y, hy, hfy⟩
        simp only [validateList, hx, hxs]
        exact iff_of_true trivial ⟨y, List.mem_cons_of_mem x hy, hfy⟩
      | some bs =>
        simp only [validateList, hx, hxs]
        constructor
        · intro h
          cases h
        · rintro ⟨y, hy, hfy⟩
          rcases List.mem_cons.mp hy with rfl | hmem
          · rw [hx] at hfy
            cases hfy
          · have hcontra := ih.mpr ⟨y, hmem, hfy⟩
            rw [hxs] at hcontra
            cases hcontra

theorem validateList_total (f : α → Option β) (l : List α) (h : ∀ x ∈ l, f x ≠ none) :
    ∃ bs, validateList f l = some bs ∧ bs.length = l.length := by
  induction l with
  | nil => exact ⟨[], rfl, rfl⟩
  | cons x xs ih =>
    rcases Option.ne_none_iff_exists'.mp (h x (by simp)) with ⟨b, hb⟩
    rcases ih (fun y hy => h y (by simp [hy])) with ⟨bs, hbs, hlen⟩
    exact ⟨b :: bs, by simp [validateList, hb, hbs], by simp [hlen]⟩

theorem filterFilter (p q : α → Bool) (l : List α) :
    (l.filter p).filter q = l.filter (fun a => p a && q a) := by
  induction l with
  | nil => rfl
  | cons x xs ih =>
    by_cases hp : p x <;> by_cases hq : q x <;>
      simp [List.filter_cons, hp, hq, ih]

theorem seriesIsin_nil (v : Option String) : seriesIsin v [] = false := by
  cases v <;> rfl

theorem seriesIsin_eq_true_iff (v : Option String) (opts : List String) :
    seriesIsin v opts = true ↔ ∃ s, v = some s ∧ s ∈ opts := by
  cases v <;> simp [seriesIsin]

theorem applyFilter_eq_filter (rows : List Row) (c : Criteria) :
    applyFilter rows c = rows.filter (keepRow c) := by
  rcases c with ⟨pos, team, inj, unav, susp, dbt, lo, hi⟩
  cases inj <;> cases unav <;> cases susp <;> cases dbt <;>
    · simp [applyFilter, filterFilter]
      refine List.filter_congr fun r _ => ?_
      simp [keepRow, decide_not, Bool.and_assoc, Bool.and_comm, Bool.and_left_comm]

theorem posGroup_filter_ne (l : List Row) (k p : String) (hpk : p ≠ k) :
    posGroup (l.filter (fun r => !(r.pos == some k))) p = posGroup l p := by
  unfold posGroup
  rw [filterFilter]
  refine List.filter_congr fun r _ => ?_
  cases ho : r.pos with
  | none => simp
  | some s =>
    by_cases hs : s = p
    · subst hs
      simp [hpk]
    · simp [hs]

theorem join_posGroups_perm (ks : List String) (l : List Row)
    (hnd : ks.Nodup) (hcov : ∀ r ∈ l, ∃ p ∈ ks, r.pos = some p) :
    List.Perm ((ks.map (posGroup l)).flatten) l := by
  induction ks generalizing l with
  | nil =>
    cases l with
    | nil => simp
    | cons r rs =>
      rcases hcov r (by simp) with ⟨p, hp, _⟩
      exact absurd hp (List.not_mem_nil p)
  | cons k ks ih =>
    simp only [List.map_cons, List.flatten_cons]
    have hnd' := List.nodup_cons.mp hnd
    have hmapeq : ks.map (posGroup l) =
        ks.map (posGroup (l.filter (fun r => !(r.pos == some k)))) := by
      refine List.map_congr_left fun p hp => ?_
      exact (posGroup_filter_ne l k p (fun h => hnd'.1 (h ▸ hp))).symm
    have hcov' : ∀ r ∈ l.filter (fun r => !(r.pos == some k)), ∃ p ∈ ks, r.pos = some p := by
      intro r hr
      rw [List.mem_filter] at hr
      rcases hcov r hr.1 with ⟨p, hp, hpos⟩
      rcases List.mem_cons.mp hp with rfl | hmem
      · exfalso
        rw [hpos] at hr
        simp at hr
      · exact ⟨p, hmem, hpos⟩
    have hperm := ih (l.filter (fun r => !(r.pos == some k))) hnd'.2 hcov'
    rw [hmapeq]
    unfold posGroup
    refine List.Perm.trans (List.Perm.append_left _ hperm) ?_
    exact List.filter_append_perm (fun r => r.pos == some k) l

theorem pvLE_trans (a b c : PandasVal) (hab : pvLE a b = true) (hbc : pvLE b c = true) :
    pvLE a c = true := by
  cases a <;> cases b <;> cases c <;> simp_all [pvLE]
  exact le_trans hab hbc

theorem pvLE_total (a b : PandasVal) (ha : a ≠ PandasVal.nan) (hb : b ≠ PandasVal.nan) :
    pvLE a b = true ∨ pvLE b a = true := by
  cases a with
  | num qa =>
    cases b with
    | num qb => simpa [pvLE] using le_total qa qb
    | posInf => simp [pvLE]
    | negInf => simp [pvLE]
    | nan => exact absurd rfl hb
  | posInf => cases b <;> simp_all [pvLE]
  | negInf => cases b <;> simp_all [pvLE]
  | nan => exact absurd rfl ha

theorem mem_insertDesc (x y : Row) (l : List Row) :
    y ∈ insertDesc x l ↔ y = x ∨ y ∈ l := by
  induction l with
  | nil => simp [insertDesc]
  | cons z zs ih =>
    simp only [insertDesc]
    by_cases h : pvLE z.ratio x.ratio
    · rw [if_pos h]
      simp only [List.mem_cons]
    · rw [if_neg h]
      simp only [List.mem_cons, ih]
      tauto

theorem insertDesc_pairwise (x : Row) (l : List Row)
    (hx : x.ratio ≠ PandasVal.nan) (hl : ∀ r ∈ l, r.ratio ≠ PandasVal.nan)
    (hp : List.Pairwise (fun a b => pvLE b.ratio a.ratio = true) l) :
    List.Pairwise (fun a b => pvLE b.ratio a.ratio = true) (insertDesc x l) := by
  induction l with
  | nil => simp [insertDesc]
  | cons z zs ih =>
    rcases List.pairwise_cons.mp hp with ⟨hz, hzs⟩
    simp only [insertDesc]
    by_cases h : pvLE z.ratio x.ratio
    · rw [if_pos h]
      refine List.pairwise_cons.mpr ⟨?_, hp⟩
      intro b hb
      rcases List.mem_cons.mp hb with rfl | hmem
      · exact h
      · exact pvLE_trans _ _ _ (hz b hmem) h
    · rw [if_neg h]
      refine List.pairwise_cons.mpr ⟨?_, ih (fun r hr => hl r (by simp [hr])) hzs⟩
      intro b hb
      rcases (mem_insertDesc x b zs).mp hb with hbx | hmem
      · rw [hbx]
        rcases pvLE_total x.ratio z.ratio hx (hl z (by simp)) with h1 | h1
        · exact h1
        · exact absurd h1 h
      · exact hz b hmem

theorem mem_sortDesc (l : List Row) (y : Row) : y ∈ sortDesc l ↔ y ∈ l := by
  induction l with
  | nil => simp [sortDesc]
  | cons x xs ih => simp [sortDesc, mem_insertDesc, ih]

theorem sortDesc_pairwise (l : List Row) (hl : ∀ r ∈ l, r.ratio ≠ PandasVal.nan) :
    List.Pairwise (fun a b => pvLE b.ratio a.ratio = true) (sortDesc l) := by
  induction l with
  | nil => simp [sortDesc]
  | cons x xs ih =>
    exact insertDesc_pairwise x (sortDesc xs) (hl x (by simp))
      (fun r hr => hl r (by simp [(mem_sortDesc xs r).mp hr]))
      (ih fun r hr => hl r (by simp [hr]))

theorem ratio_nan_of_filter (b : Row)
    (h : (match b.ratio with | PandasVal.nan => true | _ => false) = true) :
    b.ratio = PandasVal.nan := by
  cases hb : b.ratio with
  | nan => rfl
  | num q => rw [hb] at h; cases h
  | posInf => rw [hb] at h; cases h
  | negInf => rw [hb] at h; cases h

theorem ratio_ne_nan_of_filter (b : Row)
    (h : (match b.ratio with | PandasVal.nan => false | _ => true) = true) :
    b.ratio ≠ PandasVal.nan := by
  intro hc
  rw [hc] at h
  cases h

theorem sort_values_pairwise (rows : List Row) :
    List.Pairwise rowSortedBefore (sort_values_ratio_desc rows) := by
  unfold sort_values_ratio_desc
  rw [List.pairwise_append]
  have hnn : ∀ r ∈ rows.filter (fun r => match r.ratio with | PandasVal.nan => false | _ => true),
      r.ratio ≠ PandasVal.nan := by
    intro r hr
    rw [List.mem_filter] at hr
    exact ratio_ne_nan_of_filter r hr.2
  refine ⟨?_, ?_, ?_⟩
  · refine List.Pairwise.imp_of_mem ?_ (sortDesc_pairwise _ hnn)
    intro a b ha hb hr
    exact Or.inr ⟨hnn a ((mem_sortDesc _ a).mp ha), hnn b ((mem_sortDesc _ b).mp hb), hr⟩
  · refine List.pairwise_of_forall_mem_list ?_
    intro a _ b hb
    rw [List.mem_filter] at hb
    exact Or.inl (ratio_nan_of_filter b hb.2)
  · intro a _ b hb
    rw [List.mem_filter] at hb
    exact Or.inl (ratio_nan_of_filter b hb.2)

theorem intSign_cases (x : Int) : intSign x = 1 ∨ intSign x = 0 ∨ intSign x = -1 := by
  unfold intSign
  split
  · exact Or.inl rfl
  · split
    · exact Or.inr (Or.inr rfl)
    · exact Or.inr (Or.inl rfl)

/-! ### Claim theorems -/

/-- Claim C1: for every list of events and every evaluation instant, and
under the precondition that `id` order matches chronological deadline order,
`current_event` returns `None` exactly when no event's deadline is strictly
after the instant, and otherwise returns an event with a future deadline
whose `id` is minimal among all events with a future deadline. -/
theorem current_event_spec (el : EventList) (today : Int)
    (hmono : ∀ e ∈ el.events, ∀ e2 ∈ el.events,
      e.id ≤ e2.id → e.deadline_time ≤ e2.deadline_time) :
    (el.current_event today = none ↔ ∀ e ∈ el.events, ¬ (today < e.deadline_time)) ∧
    ∀ ev, el.current_event today = some ev →
      ev ∈ el.events ∧ today < ev.deadline_time ∧
        ∀ e ∈ el.events, today < e.deadline_time → ev.id ≤ e.id := by
  constructor
  · unfold EventList.current_event
    cases hf : el.events.filter (fun e => today < e.deadline_time) with
    | nil =>
      constructor
      · intro _ e he hlt
        have hmem : e ∈ el.events.filter (fun e => today < e.deadline_time) :=
          List.mem_filter.mpr ⟨he, by simpa using hlt⟩
        rw [hf] at hmem
        exact absurd hmem (List.not_mem_nil e)
      · intro _
        rfl
    | cons e es =>
      constructor
      · intro hcon
        exact absurd hcon (Option.some_ne_none _)
      · intro hall
        exfalso
        have he : e ∈ el.events.filter (fun x => today < x.deadline_time) := by
          rw [hf]
          simp
        rw [List.mem_filter] at he
        exact hall e he.1 (by simpa using he.2)
  · intro ev hev
    unfold EventList.current_event at hev
    cases hf : el.events.filter (fun e => today < e.deadline_time) with
    | nil =>
      rw [hf] at hev
      exact absurd hev (by simp)
    | cons e es =>
      rw [hf] at hev
      have hevv := Option.some.inj hev
      subst hevv
      have hmem : pyMinBy (fun x => x.id) e es ∈ e :: es := pyMinBy_mem _ e es
      rw [← hf, List.mem_filter] at hmem
      refine ⟨hmem.1, by simpa using hmem.2, ?_⟩
      intro e2 he2 hlt
      have he2f : e2 ∈ el.events.filter (fun x => today < x.deadline_time) :=
        List.mem_filter.mpr ⟨he2, by simpa using hlt⟩
      rw [hf] at he2f
      exact pyMinBy_le (fun x => x.id) e es e2 he2f

/-- Witness for C1 at the spec's example: deadlines one day past, one day
ahead, two days ahead of instant `0`; the resolver picks the `id = 2` event. -/
theorem current_event_spec_witness :
    evListEx.current_event 0 = some (mkEvent 2 86400 "Gameweek 2") ∧
    mkEvent 2 86400 "Gameweek 2" ∈ evListEx.events ∧
    (0 : Int) < (mkEvent 2 86400 "Gameweek 2").deadline_time := by
  have h := (current_event_spec evListEx 0 (by decide)).2
    (mkEvent 2 86400 "Gameweek 2") (by decide)
  exact ⟨by decide, h.1, h.2.1⟩

/-- Claim C2: validation is all-or-nothing. If any single raw record of any
of the four arrays is invalid, `parse_official_stats` raises and the session
state is returned unchanged; if every record is valid, it assigns all four
collections, whose lengths equal the corresponding input arrays' lengths. -/
theorem parse_official_stats_spec {τ π ε ρ T P E R : Type}
    (vt : τ → Option T) (vp : π → Option P) (ve : ε → Option E) (vr : ρ → Option R)
    (doc : RawDoc τ π ε ρ) (st : SessionState T P E R) :
    (((∃ x ∈ doc.teams, vt x = none) ∨ (∃ x ∈ doc.elements, vp x = none) ∨
        (∃ x ∈ doc.events, ve x = none) ∨ (∃ x ∈ doc.element_types, vr x = none)) →
      parse_official_stats vt vp ve vr doc st = (st, true)) ∧
    ((∀ x ∈ doc.teams, vt x ≠ none) → (∀ x ∈ doc.elements, vp x ≠ none) →
      (∀ x ∈ doc.events, ve x ≠ none) → (∀ x ∈ doc.element_types, vr x ≠ none) →
      ∃ ts ps es rs,
        parse_official_stats vt vp ve vr doc st =
          ({ teams := some ts, players := some ps, events := some es,
             positions := some rs }, false) ∧
          ts.length = doc.teams.length ∧ ps.length = doc.elements.length ∧
          es.length = doc.events.length ∧ rs.length = doc.element_types.length) := by
  constructor
  · intro h
    have hnone : validateList vt doc.teams = none ∨ validateList vp doc.elements = none ∨
        validateList ve doc.events = none ∨ validateList vr doc.element_types = none := by
      rcases h with h | h | h | h
      · exact Or.inl ((validateList_eq_none_iff vt doc.teams).mpr h)
      · exact Or.inr (Or.inl ((validateList_eq_none_iff vp doc.elements).mpr h))
      · exact Or.inr (Or.inr (Or.inl ((validateList_eq_none_iff ve doc.events).mpr h)))
      · exact Or.inr (Or.inr (Or.inr ((validateList_eq_none_iff vr doc.element_types).mpr h)))
    cases h1 : validateList vt doc.teams <;> cases h2 : validateList vp doc.elements <;>
      cases h3 : validateList ve doc.events <;> cases h4 : validateList vr doc.element_types <;>
        simp_all [parse_official_stats]
  · intro hvt hvp hve hvr
    rcases validateList_total vt doc.teams hvt with ⟨ts, hts, hlts⟩
    rcases validateList_total vp doc.elements hvp with ⟨ps, hps, hlps⟩
    rcases validateList_total ve doc.events hve with ⟨es, hes, hles⟩
    rcases validateList_total vr doc.element_types hvr with ⟨rs, hrs, hlrs⟩
    exact ⟨ts, ps, es, rs, by simp [parse_official_stats, hts, hps, hes, hrs],
      hlts, hlps, hles, hlrs⟩

/-- Witness for C2: a document with one corrupted `elements` record leaves
the session state untouched; a well-formed document fills all four slots. -/
theorem parse_official_stats_spec_witness :
    parse_official_stats vNat vNat vNat vNat docBadEx stEx = (stEx, true) ∧
    parse_official_stats vNat vNat vNat vNat docGoodEx stEx =
      ({ teams := some [1], players := some [2], events := some [3],
         positions := some [4] }, false) := by
  constructor
  · exact (parse_official_stats_spec vNat vNat vNat vNat docBadEx stEx).1
      (Or.inr (Or.inl ⟨0, by decide, by decide⟩))
  · decide

/-- Claim C3: the price-change indicator equals
`sign(sign(cost_change_event) + sign(cost_change_start))` mapped
negative → "⬇️" (down), zero → "&#32;" (flat), positive → "⬆️" (up), and in
particular `(1, -1)` is flat, `(1, 1)` up, `(0, 0)` flat, `(-1, -1)` down. -/
theorem price_change_indicator_spec :
    (∀ a b : Int, price_change_indicator a b = some (specPriceDirection a b)) ∧
    price_change_indicator 1 (-1) = some " " ∧
    price_change_indicator 1 1 = some "⬆️" ∧
    price_change_indicator 0 0 = some " " ∧
    price_change_indicator (-1) (-1) = some "⬇️" := by
  refine ⟨?_, by decide, by decide, by decide, by decide⟩
  intro a b
  rcases intSign_cases a with h1 | h1 | h1 <;> rcases intSign_cases b with h2 | h2 | h2 <;>
    (simp only [price_change_indicator, specPriceDirection, h1, h2]; decide)

/-- Counterexample to Claim C4 as stated: at `price = 0` and expected points
`1`, the value-efficiency ratio is `+inf` — an ordinary sortable number, not
a `DivisionUndefined` / "not applicable" result — and the descending ratio
sort places the zero-price row FIRST (treated as highest, not lowest). -/
theorem ratio_zero_price_counterexample :
    pdiv (PandasVal.num 1) (PandasVal.num 0) = PandasVal.posInf ∧
    PandasVal.posInf ≠ PandasVal.nan ∧
    sort_values_ratio_desc [rowFinEx, rowInfEx] = [rowInfEx, rowFinEx] := by
  refine ⟨by decide, by decide, by decide⟩

/-- Claim C4 (amended): for a zero-price row the ratio is `+inf` when the
expected points are positive, `NaN` when they are zero, and `-inf` when
negative; no exception is raised (the division is total); `+inf` is an
ordinary sortable value ranking at least as high as every finite ratio, and
the ratio sort orders rows descending with all `NaN` rows placed last. -/
theorem ratio_zero_price_spec (ep : ℚ) (rows : List Row) :
    (0 < ep → pdiv (PandasVal.num ep) (PandasVal.num 0) = PandasVal.posInf) ∧
    (ep = 0 → pdiv (PandasVal.num ep) (PandasVal.num 0) = PandasVal.nan) ∧
    (ep < 0 → pdiv (PandasVal.num ep) (PandasVal.num 0) = PandasVal.negInf) ∧
    (∀ q : ℚ, pvLE (PandasVal.num q) PandasVal.posInf = true) ∧
    List.Pairwise rowSortedBefore (sort_values_ratio_desc rows) := by
  refine ⟨?_, ?_, ?_, fun q => rfl, sort_values_pairwise rows⟩
  · intro h
    simp [pdiv, h]
  · intro h
    subst h
    simp [pdiv]
  · intro h
    have h1 : ¬ (0 : ℚ) < ep := not_lt.mpr (le_of_lt h)
    simp [pdiv, h, h1]

/-- Witness for C4 (amended) at expected points `1`. -/
theorem ratio_zero_price_spec_witness :
    pdiv (PandasVal.num 1) (PandasVal.num 0) = PandasVal.posInf :=
  (ratio_zero_price_spec 1 []).1 (by norm_num)

/-- Claim C5: for a duplicate-free selection of positions and an input table
in the upstream descending-ratio order, the per-position groups of the
filtered table partition it — their concatenation is a permutation of the
filtered table (no row duplicated or dropped) — and every group preserves
the sort order. -/
theorem grouping_partition_spec (rows : List Row) (c : Criteria)
    (hnd : c.position.Nodup)
    (hsorted : List.Pairwise rowSortedBefore rows) :
    List.Perm (groupTabs (applyFilter rows c) c.position).flatten (applyFilter rows c) ∧
    ∀ g ∈ groupTabs (applyFilter rows c) c.position, List.Pairwise rowSortedBefore g := by
  constructor
  · refine join_posGroups_perm c.position (applyFilter rows c) hnd ?_
    intro r hr
    rw [applyFilter_eq_filter, List.mem_filter] at hr
    have hk := hr.2
    unfold keepRow at hk
    simp only [Bool.and_eq_true] at hk
    have hpos : seriesIsin r.pos c.position = true := hk.1.1.1.1.1.1.1
    rcases (seriesIsin_eq_true_iff r.pos c.position).mp hpos with ⟨s, hs, hmem⟩
    exact ⟨s, hmem, hs⟩
  · intro g hg
    unfold groupTabs at hg
    rcases List.mem_map.mp hg with ⟨p, _, rfl⟩
    have h1 : List.Pairwise rowSortedBefore (applyFilter rows c) := by
      rw [applyFilter_eq_filter]
      exact List.Pairwise.sublist (List.filter_sublist rows) hsorted
    exact List.Pairwise.sublist (List.filter_sublist _) h1

/-- Witness for C5 on a concrete three-row table and two selected
positions. -/
theorem grouping_partition_spec_witness :
    List.Perm (groupTabs (applyFilter rowsEx critEx) critEx.position).flatten
      (applyFilter rowsEx critEx) :=
  (grouping_partition_spec rowsEx critEx (by decide) (by decide)).1

/-- Claim C6: an empty positions selection yields zero rows (and zero rows
in every group), not all rows; likewise an empty teams selection. -/
theorem empty_category_spec (rows : List Row) (c : Criteria) :
    applyFilter rows { c with position := [] } = [] ∧
    (∀ p, posGroup (applyFilter rows { c with position := [] }) p = []) ∧
    applyFilter rows { c with team := [] } = [] ∧
    (∀ p, posGroup (applyFilter rows { c with team := [] }) p = []) := by
  have h1 : applyFilter rows { c with position := [] } = [] := by
    rw [applyFilter_eq_filter]
    refine List.filter_eq_nil_iff.mpr ?_
    intro r _
    simp [keepRow, seriesIsin_nil]
  have h2 : applyFilter rows { c with team := [] } = [] := by
    rw [applyFilter_eq_filter]
    refine List.filter_eq_nil_iff.mpr ?_
    intro r _
    simp [keepRow, seriesIsin_nil]
  exact ⟨h1, fun p => by rw [h1]; rfl, h2, fun p => by rw [h2]; rfl⟩

/-- Claim C7: the filter cascade is idempotent — applying the same criteria
twice equals applying them once. -/
theorem filter_idempotent_spec (rows : List Row) (c : Criteria) :
    applyFilter (applyFilter rows c) c = applyFilter rows c := by
  rw [applyFilter_eq_filter rows c, applyFilter_eq_filter (rows.filter (keepRow c)) c,
    filterFilter]
  refine List.filter_congr fun r _ => ?_
  exact Bool.and_self _

/-- Claim C8: `current_event_id` and `current_event_name` both delegate to
the single `current_event` resolution: either all three are `None`, or there
is one event whose `id` and `name` they respectively return. -/
theorem current_accessors_consistent (el : EventList) (today : Int) :
    (el.current_event today = none ∧ el.current_event_id today = none ∧
      el.current_event_name today = none) ∨
    ∃ ev, el.current_event today = some ev ∧ el.current_event_id today = some ev.id ∧
      el.current_event_name today = some ev.name := by
  cases h : el.current_event today with
  | none =>
    exact Or.inl ⟨rfl, by simp [EventList.current_event_id, h],
      by simp [EventList.current_event_name, h]⟩
  | some ev =>
    exact Or.inr ⟨ev, rfl, by simp [EventList.current_event_id, h],
      by simp [EventList.current_event_name, h]⟩

/-- Claim C9: an id absent from the team (resp. position) collection resolves
to `None` rather than failing; a present id (under unique ids) resolves to
the corresponding name. -/
theorem lookup_by_id_spec (tl : TeamList) (pl : PositionList) (i : Int) :
    ((∀ t ∈ tl.teams, t.id ≠ i) → tl.team_name_by_id i = none) ∧
    ((tl.teams.map Team.id).Nodup → ∀ t ∈ tl.teams, t.id = i →
      tl.team_name_by_id i = some t.name) ∧
    ((∀ p ∈ pl.positions, p.id ≠ i) → pl.position_singular_name_by_id i = none) ∧
    ((pl.positions.map Position.id).Nodup → ∀ p ∈ pl.positions, p.id = i →
      pl.position_singular_name_by_id i = some p.singular_name) :=
  ⟨fun h => teamLookupLoop_eq_none tl.teams i h,
   fun hnd t ht hid => teamLookupLoop_eq_some tl.teams i hnd t ht hid,
   fun h => positionLookupLoop_eq_none pl.positions i h,
   fun hnd p hp hid => positionLookupLoop_eq_some pl.positions i hnd p hp hid⟩

/-- Witness for C9 on concrete team and position lists: present ids resolve
to names, absent ids resolve to `None`. -/
theorem lookup_by_id_spec_witness :
    tlEx.team_name_by_id 2 = some "Chelsea" ∧ tlEx.team_name_by_id 99 = none ∧
    plEx.position_singular_name_by_id 1 = some "Goalkeeper" ∧
    plEx.position_singular_name_by_id 7 = none := by
  refine ⟨?_, ?_, ?_, ?_⟩
  · exact (lookup_by_id_spec tlEx plEx 2).2.1 (by decide) (mkTeam 2 "Chelsea")
      (by decide) (by decide)
  · exact (lookup_by_id_spec tlEx plEx 99).1 (by decide)
  · exact (lookup_by_id_spec tlEx plEx 1).2.2.2 (by decide) (mkPosition 1 "Goalkeeper")
      (by decide) (by decide)
  · exact (lookup_by_id_spec tlEx plEx 7).2.2.1 (by decide)

/-- Claim C10: a row whose status is none of "i", "u", "s", "d" is kept or
dropped identically by two filter runs that differ only in the four
status-inclusion flags. -/
theorem status_flags_noninterference (rows : List Row) (pos team : List String)
    (i1 u1 s1 d1 i2 u2 s2 d2 : Bool) (lo hi : ℚ) (r : Row)
    (hst : r.status ≠ "i" ∧ r.status ≠ "u" ∧ r.status ≠ "s" ∧ r.status ≠ "d") :
    (r ∈ applyFilter rows ⟨pos, team, i1, u1, s1, d1, lo, hi⟩ ↔
      r ∈ applyFilter rows ⟨pos, team, i2, u2, s2, d2, lo, hi⟩) := by
  obtain ⟨h1, h2, h3, h4⟩ := hst
  rw [applyFilter_eq_filter, applyFilter_eq_filter, List.mem_filter, List.mem_filter]
  simp [keepRow, h1, h2, h3, h4]

/-- Witness for C10: an available-status row kept under all-false flags is
also kept under all-true flags. -/
theorem status_flags_noninterference_witness :
    rowAvailEx ∈ applyFilter [rowAvailEx]
      ⟨["Midfielder"], ["Arsenal"], true, true, true, true, 0, 20⟩ :=
  (status_flags_noninterference [rowAvailEx] ["Midfielder"] ["Arsenal"]
      false false false false true true true true 0 20 rowAvailEx
      (by decide)).mp (by decide)
